import Mathlib

/-!
Verification development for img2block (src/img2block.py), a converter from
raster images to Unicode block characters via quadrant best-fit matching.

Shallow embedding conventions:
* Real (Python float) arithmetic is modeled exactly over ℚ.
* numpy reductions that produce NaN (the mean of an empty slice) are modeled
  with `Option ℚ`: `none` stands for NaN, and comparisons against NaN are
  false, exactly as for IEEE floats.  The `float('inf')` initial minimum of
  `best_fit_quadrant` is modeled by `none` in the accumulator position, whose
  comparison treats `none` as positive infinity (`distLt`).
* Python `int(x)` on a float truncates toward zero (`pyTrunc`).
* Python `a / b` raises ZeroDivisionError when `b = 0`; the pipeline hence
  returns `Except PyErr`.  `PyErr.invalidParameterError` is never produced by
  the embedded code: no such class exists anywhere in the source.  The
  constructor exists only so that the spec's claim naming it can be stated.
* PIL (`Image.open` / `convert` / `resize`) is the external collaborator: the
  embedding takes the original dimensions `w h` and the post-resize 8-bit
  grayscale and alpha channels `gray alpha : ℕ → ℕ → ℕ` as inputs.
* numpy slicing semantics (negative endpoints wrap, endpoints clamp to the
  array shape, empty slices are allowed) are modeled by `sliceIdx`.
-/

namespace Img2Block

/-- Python `int()` on a real value: truncation toward zero.  On a rational
this is the truncating division of the numerator by the denominator. -/
def pyTrunc (q : ℚ) : ℤ := q.num.tdiv q.den

/-- `np.clip(x, lo, hi)`. -/
def npClip (x lo hi : ℚ) : ℚ := min (max x lo) hi

/-- `clamp01` exactly as the spec words it (spec section 4.2). -/
def clamp01 (x : ℚ) : ℚ := max 0 (min 1 x)

/-- Resolve a Python/numpy slice endpoint against an axis length `n`:
negative endpoints count from the end, endpoints clamp to the shape. -/
def sliceIdx (i : ℤ) (n : ℕ) : ℕ := if i < 0 then (n + i).toNat else min i.toNat n

/-- A 2x2 palette pattern `[[tl, tr], [bl, br]]`. -/
structure Pat where
  tl : ℚ
  tr : ℚ
  bl : ℚ
  br : ℚ
deriving DecidableEq

/-- A 2x2 quadrant sample; a `none` entry is numpy NaN (the mean of an
empty slice). -/
structure Quad where
  tl : Option ℚ
  tr : Option ℚ
  bl : Option ℚ
  br : Option ℚ
deriving DecidableEq

/-- `QUADRANT_PATTERNS` (src lines 9-26): the 16 binary quadrant blocks. -/
def QUADRANT_PATTERNS : List (Char × Pat) := [
  (' ', ⟨0, 0, 0, 0⟩),
  ('▗', ⟨0, 0, 0, 1⟩),
  ('▖', ⟨0, 0, 1, 0⟩),
  ('▄', ⟨0, 0, 1, 1⟩),
  ('▝', ⟨0, 1, 0, 0⟩),
  ('▐', ⟨0, 1, 0, 1⟩),
  ('▞', ⟨0, 1, 1, 0⟩),
  ('▟', ⟨0, 1, 1, 1⟩),
  ('▘', ⟨1, 0, 0, 0⟩),
  ('▚', ⟨1, 0, 0, 1⟩),
  ('▌', ⟨1, 0, 1, 0⟩),
  ('▙', ⟨1, 0, 1, 1⟩),
  ('▀', ⟨1, 1, 0, 0⟩),
  ('▜', ⟨1, 1, 0, 1⟩),
  ('▛', ⟨1, 1, 1, 0⟩),
  ('█', ⟨1, 1, 1, 1⟩)]

/-- `SHADE_PATTERNS` (src lines 29-33): uniform fills 0.25 / 0.5 / 0.75. -/
def SHADE_PATTERNS : List (Char × Pat) := [
  ('░', ⟨1/4, 1/4, 1/4, 1/4⟩),
  ('▒', ⟨1/2, 1/2, 1/2, 1/2⟩),
  ('▓', ⟨3/4, 3/4, 3/4, 3/4⟩)]

/-- `ALL_PATTERNS = QUADRANT_PATTERNS + SHADE_PATTERNS` (src line 36). -/
def ALL_PATTERNS : List (Char × Pat) := QUADRANT_PATTERNS ++ SHADE_PATTERNS

/-- `PATTERNS` (src line 39): the float32 numpy copies of `ALL_PATTERNS`.
Every pattern value (0, 1, 1/4, 1/2, 3/4) is exactly representable in
float32, so the list is value-identical to `ALL_PATTERNS`. -/
def PATTERNS : List (Char × Pat) := ALL_PATTERNS

/-- `boost_contrast` (src lines 46-50):
`np.clip((brightness - 0.5) * strength + 0.5, 0, 1)`, elementwise. -/
def boost_contrast (brightness : ℚ) (strength : ℚ) : ℚ :=
  npClip ((brightness - 1/2) * strength + 1/2) 0 1

/-- The elementwise brightness shift of src lines 113-115:
`if brightness != 0.0: gray_arr = np.clip(gray_arr + brightness, 0.0, 1.0)`
(the whole clip is skipped when the delta is exactly zero). -/
def applyBrightnessShift (v delta : ℚ) : ℚ :=
  if delta = 0 then v else npClip (v + delta) 0 1

/-- `np.sum((quad - pattern) ** 2)` (src line 60): NaN anywhere in the
sample makes the distance NaN. -/
def qdist (q : Quad) (p : Pat) : Option ℚ :=
  match q.tl, q.tr, q.bl, q.br with
  | some a, some b, some c, some d =>
      some ((a - p.tl) ^ 2 + (b - p.tr) ^ 2 + (c - p.bl) ^ 2 + (d - p.br) ^ 2)
  | _, _, _, _ => none

/-- The float comparison `dist < min_dist` of src line 61, where `dist` may
be NaN (`none` on the left, never less than anything) and `min_dist` may be
the initial `float('inf')` (`none` on the right, greater than any number). -/
def distLt : Option ℚ → Option ℚ → Bool
  | none, _ => false
  | some _, none => true
  | some d, some m => decide (d < m)

/-- The scan loop of `best_fit_quadrant` (src lines 59-63). -/
def bestFitAux (q : Quad) : List (Char × Pat) → Char → Option ℚ → Char
  | [], best, _ => best
  | e :: rest, best, minD =>
    if distLt (qdist q e.2) minD then bestFitAux q rest e.1 (qdist q e.2)
    else bestFitAux q rest best minD

/-- `best_fit_quadrant` (src lines 52-65): scan of `PATTERNS` starting from
`best_char = ' '` and `min_dist = float('inf')`. -/
def best_fit_quadrant (q : Quad) : Char := bestFitAux q PATTERNS ' ' none

/-- `arr[ys:ye, xs:xe].mean()` with already-resolved slice indices: numpy's
mean (sum divided by the element count), which is NaN for an empty slice. -/
def regionMean (f : ℕ → ℕ → ℚ) (ys ye xs xe : ℕ) : Option ℚ :=
  if (ye - ys) * (xe - xs) = 0 then none
  else some
    (((List.range (ye - ys)).map fun dy =>
        ((List.range (xe - xs)).map fun dx => f (ys + dy) (xs + dx)).sum).sum /
      (((ye - ys) * (xe - xs) : ℕ) : ℚ))

/-- `sample_cell` (src lines 67-89) on an `H × W` brightness field: truncated
cell boundaries, then the mean of each of the four quadrant slices. -/
def sample_cell (H W : ℕ) (f : ℕ → ℕ → ℚ) (x y : ℕ) (cell_w cell_h : ℚ) : Quad :=
  let xs := sliceIdx (pyTrunc ((x : ℚ) * cell_w)) W
  let xm := sliceIdx (pyTrunc (((x : ℚ) + 1/2) * cell_w)) W
  let xe := sliceIdx (pyTrunc (((x : ℚ) + 1) * cell_w)) W
  let ys := sliceIdx (pyTrunc ((y : ℚ) * cell_h)) H
  let ym := sliceIdx (pyTrunc (((y : ℚ) + 1/2) * cell_h)) H
  let ye := sliceIdx (pyTrunc (((y : ℚ) + 1) * cell_h)) H
  { tl := regionMean f ys ym xs xm
    tr := regionMean f ys ym xm xe
    bl := regionMean f ym ye xs xm
    br := regionMean f ym ye xm xe }

/-- Python exception outcomes of the pipeline.  `invalidParameterError` is
named by the spec's error taxonomy but does not exist in the source (no such
class is defined or raised anywhere); the constructor is present only so the
spec's claim about it is expressible. -/
inductive PyErr where
  | zeroDivisionError
  | invalidParameterError
deriving DecidableEq

/-- The character grid of `image_to_blocks` (src lines 127-134): one string
per output line, each cell sampled and matched. -/
def render_grid (H W : ℕ) (field : ℕ → ℕ → ℚ) (lines cols : ℕ)
    (cell_w cell_h : ℚ) : List String :=
  (List.range lines).map fun y =>
    String.mk ((List.range cols).map fun x =>
      best_fit_quadrant (sample_cell H W field x y cell_w cell_h))

/-- `image_to_blocks` (src lines 91-136) up to the final newline join.
`w h` are the original (pre-resize) image dimensions; `gray alpha` are the
8-bit channels after the external PIL resize to `(cols * 2, lines * 2)`.
The three Python true divisions are modeled with their ZeroDivisionError
behaviour, in source order: `aspect = img.width / img.height` (line 100),
`cell_h = target_h / lines` (line 124), `cell_w = target_w / cols`
(line 125). -/
def image_to_blocks_rows (w h : ℕ) (gray alpha : ℕ → ℕ → ℕ) (lines : ℤ)
    (contrast brightness : ℚ) : Except PyErr (List String) :=
  if h = 0 then .error .zeroDivisionError else
  let aspect : ℚ := (w : ℚ) / (h : ℚ)
  let cols : ℤ := pyTrunc ((lines : ℚ) * aspect * 2)
  let target_w : ℤ := cols * 2
  let target_h : ℤ := lines * 2
  let field : ℕ → ℕ → ℚ := fun yy xx =>
    boost_contrast
      (applyBrightnessShift ((gray yy xx : ℚ) / 255) brightness *
        ((alpha yy xx : ℚ) / 255))
      contrast
  if lines = 0 then .error .zeroDivisionError else
  let cell_h : ℚ := (target_h : ℚ) / (lines : ℚ)
  if cols = 0 then .error .zeroDivisionError else
  let cell_w : ℚ := (target_w : ℚ) / (cols : ℚ)
  .ok (render_grid target_h.toNat target_w.toNat field lines.toNat cols.toNat
    cell_w cell_h)

/-- `image_to_blocks` final string: the rows joined by newlines. -/
def image_to_blocks (w h : ℕ) (gray alpha : ℕ → ℕ → ℕ) (lines : ℤ)
    (contrast brightness : ℚ) : Except PyErr String :=
  (image_to_blocks_rows w h gray alpha lines contrast brightness).map
    (String.intercalate "\n")

/-- Spec section 4.3 reference: mean intensity over the sub-rectangle
`[ys,ye) × [xs,xe)` of the field, as a Finset double sum (undefined — NaN —
when the rectangle is empty, cf. claim C3). -/
def meanSpec (f : ℕ → ℕ → ℚ) (ys ye xs xe : ℕ) : Option ℚ :=
  if ys < ye ∧ xs < xe then
    some ((∑ i ∈ Finset.Ico ys ye, ∑ j ∈ Finset.Ico xs xe, f i j) /
      (((ye - ys) * (xe - xs) : ℕ) : ℚ))
  else none

/-- Spec section 4.3 reference form of `sampleCell`: floor-based boundaries
`start = ⌊index * cellSize⌋`, `mid = ⌊(index + 1/2) * cellSize⌋`,
`end = ⌊(index + 1) * cellSize⌋` on each axis, and the mean intensity of
each of the four quadrant sub-rectangles of the field. -/
def sampleCellSpec (H W : ℕ) (f : ℕ → ℕ → ℚ) (x y : ℕ) (cell_w cell_h : ℚ) : Quad :=
  let xs := sliceIdx ⌊(x : ℚ) * cell_w⌋ W
  let xm := sliceIdx ⌊((x : ℚ) + 1/2) * cell_w⌋ W
  let xe := sliceIdx ⌊((x : ℚ) + 1) * cell_w⌋ W
  let ys := sliceIdx ⌊(y : ℚ) * cell_h⌋ H
  let ym := sliceIdx ⌊((y : ℚ) + 1/2) * cell_h⌋ H
  let ye := sliceIdx ⌊((y : ℚ) + 1) * cell_h⌋ H
  { tl := meanSpec f ys ym xs xm
    tr := meanSpec f ys ym xm xe
    bl := meanSpec f ym ye xs xm
    br := meanSpec f ym ye xm xe }

/-- Squared Euclidean distance of a real-valued (NaN-free) sample to a
palette pattern, as spec section 4.4 defines it. -/
def rdist (a b c d : ℚ) (p : Pat) : ℚ :=
  (a - p.tl) ^ 2 + (b - p.tr) ^ 2 + (c - p.bl) ^ 2 + (d - p.br) ^ 2

/-- A real-valued (NaN-free) quadrant sample. -/
def rquad (a b c d : ℚ) : Quad := ⟨some a, some b, some c, some d⟩

/-- Spec section 4.4 reference matcher: the first palette entry whose
distance to the sample is minimal over the whole palette. -/
def bestFitSpec (a b c d : ℚ) : Option (Char × Pat) :=
  PATTERNS.find? fun e =>
    PATTERNS.all fun e2 => decide (rdist a b c d e.2 ≤ rdist a b c d e2.2)

/-- A binary quadrant pattern: each quadrant independently dark (0) or
lit (1). -/
def binPat (a b c d : Bool) : Pat :=
  ⟨bif a then 1 else 0, bif b then 1 else 0, bif c then 1 else 0,
    bif d then 1 else 0⟩

/-- A uniform fill pattern. -/
def uniformPat (v : ℚ) : Pat := ⟨v, v, v, v⟩

/-! ## Helper lemmas -/

theorem npClip_unit_eq_clamp01 (x : ℚ) : npClip x 0 1 = clamp01 x := by
  unfold npClip clamp01
  simp only [min_def, max_def]
  split_ifs <;> linarith

theorem pyTrunc_eq_floor {q : ℚ} (h : 0 ≤ q) : pyTrunc q = ⌊q⌋ := by
  rw [pyTrunc, Rat.floor_def,
    Int.tdiv_eq_ediv (Rat.num_nonneg.2 h) (Int.natCast_nonneg _)]

theorem sample_cell_tl (H W : ℕ) (f : ℕ → ℕ → ℚ) (x y : ℕ) (cw ch : ℚ) :
    (sample_cell H W f x y cw ch).tl =
      regionMean f (sliceIdx (pyTrunc ((y : ℚ) * ch)) H)
        (sliceIdx (pyTrunc (((y : ℚ) + 1/2) * ch)) H)
        (sliceIdx (pyTrunc ((x : ℚ) * cw)) W)
        (sliceIdx (pyTrunc (((x : ℚ) + 1/2) * cw)) W) := rfl

theorem sample_cell_tr (H W : ℕ) (f : ℕ → ℕ → ℚ) (x y : ℕ) (cw ch : ℚ) :
    (sample_cell H W f x y cw ch).tr =
      regionMean f (sliceIdx (pyTrunc ((y : ℚ) * ch)) H)
        (sliceIdx (pyTrunc (((y : ℚ) + 1/2) * ch)) H)
        (sliceIdx (pyTrunc (((x : ℚ) + 1/2) * cw)) W)
        (sliceIdx (pyTrunc (((x : ℚ) + 1) * cw)) W) := rfl

theorem sample_cell_bl (H W : ℕ) (f : ℕ → ℕ → ℚ) (x y : ℕ) (cw ch : ℚ) :
    (sample_cell H W f x y cw ch).bl =
      regionMean f (sliceIdx (pyTrunc (((y : ℚ) + 1/2) * ch)) H)
        (sliceIdx (pyTrunc (((y : ℚ) + 1) * ch)) H)
        (sliceIdx (pyTrunc ((x : ℚ) * cw)) W)
        (sliceIdx (pyTrunc (((x : ℚ) + 1/2) * cw)) W) := rfl

theorem sample_cell_br (H W : ℕ) (f : ℕ → ℕ → ℚ) (x y : ℕ) (cw ch : ℚ) :
    (sample_cell H W f x y cw ch).br =
      regionMean f (sliceIdx (pyTrunc (((y : ℚ) + 1/2) * ch)) H)
        (sliceIdx (pyTrunc (((y : ℚ) + 1) * ch)) H)
        (sliceIdx (pyTrunc (((x : ℚ) + 1/2) * cw)) W)
        (sliceIdx (pyTrunc (((x : ℚ) + 1) * cw)) W) := rfl

/-! ## Claim theorems -/

/-- C6: `boost_contrast(value, strength)` equals
`clamp01((value - 0.5) * strength + 0.5)` for every value and strength, and
at strength 1 it is the identity on `[0, 1]`. -/
theorem boost_contrast_clamp_and_identity :
    (∀ v s : ℚ, boost_contrast v s = clamp01 ((v - 1/2) * s + 1/2)) ∧
    ∀ v : ℚ, 0 ≤ v → v ≤ 1 → boost_contrast v 1 = v := by
  constructor
  · intro v s
    exact npClip_unit_eq_clamp01 _
  · intro v h0 h1
    unfold boost_contrast npClip
    have hv : (v - 1/2) * 1 + 1/2 = v := by ring
    rw [hv, max_eq_left h0, min_eq_left h1]

/-- C6 witness: the identity branch at the concrete value 1/3. -/
theorem boost_contrast_clamp_and_identity_witness :
    boost_contrast (1/3) 1 = 1/3 :=
  boost_contrast_clamp_and_identity.2 (1/3) (by with_unfolding_all decide)
    (by with_unfolding_all decide)

/-- C7 counterexample: at `delta = 0` the source skips the clip entirely
(`if brightness != 0.0`), so for a value outside `[0, 1]` the shifted result
is neither `clamp01(v + delta)` nor inside `[0, 1]`; the claim's "for every
real value v" is false on the code. -/
theorem applyBrightnessShift_not_clamped_cex :
    applyBrightnessShift 2 0 = 2 ∧ clamp01 (2 + 0) = 1 ∧
      ¬(applyBrightnessShift 2 0 ≤ 1) := by
  with_unfolding_all decide

/-- C7 amended: for values in `[0, 1]` (the range of every normalized
grayscale channel) the shift equals `clamp01(v + delta)` and stays in
`[0, 1]` for every delta; and a pixel with alpha 0 composites to 0 whatever
the shifted gray value is. -/
theorem applyBrightnessShift_clamped_on_unit :
    (∀ v delta : ℚ, 0 ≤ v → v ≤ 1 →
      applyBrightnessShift v delta = clamp01 (v + delta) ∧
      0 ≤ applyBrightnessShift v delta ∧ applyBrightnessShift v delta ≤ 1) ∧
    ∀ g delta : ℚ, applyBrightnessShift g delta * 0 = 0 := by
  constructor
  · intro v delta h0 h1
    unfold applyBrightnessShift
    by_cases hd : delta = 0
    · subst hd
      rw [if_pos rfl]
      refine ⟨?_, h0, h1⟩
      unfold clamp01
      rw [add_zero, min_eq_right h1, max_eq_right h0]
    · rw [if_neg hd]
      refine ⟨npClip_unit_eq_clamp01 _, ?_, ?_⟩
      · exact le_min (le_max_right _ _) zero_le_one
      · exact min_le_right _ _
  · intro g delta
    exact mul_zero _

/-- C7 witness: the clamped branch at v = 1/2, delta = 1/4. -/
theorem applyBrightnessShift_clamped_on_unit_witness :
    applyBrightnessShift (1/2) (1/4) = clamp01 (1/2 + 1/4) ∧
    0 ≤ applyBrightnessShift (1/2) (1/4) ∧
    applyBrightnessShift (1/2) (1/4) ≤ 1 :=
  applyBrightnessShift_clamped_on_unit.1 (1/2) (1/4)
    (by with_unfolding_all decide) (by with_unfolding_all decide)

/-- C8: the palette is the 16 binary quadrant patterns, each combination
exactly once, followed by the three uniform shades 1/4, 1/2, 3/4; glyphs are
pairwise distinct and every pattern value lies in `[0, 1]`. -/
theorem palette_structure :
    ALL_PATTERNS.length = 19 ∧
    (∀ q : Bool × Bool × Bool × Bool,
      ((ALL_PATTERNS.take 16).countP fun e =>
        decide (e.2 = binPat q.1 q.2.1 q.2.2.1 q.2.2.2)) = 1) ∧
    (ALL_PATTERNS.drop 16).map Prod.snd =
      [uniformPat (1/4), uniformPat (1/2), uniformPat (3/4)] ∧
    (ALL_PATTERNS.map Prod.fst).Nodup ∧
    (ALL_PATTERNS.all fun e =>
      decide (0 ≤ e.2.tl) && decide (e.2.tl ≤ 1) &&
      (decide (0 ≤ e.2.tr) && decide (e.2.tr ≤ 1)) &&
      (decide (0 ≤ e.2.bl) && decide (e.2.bl ≤ 1)) &&
      (decide (0 ≤ e.2.br) && decide (e.2.br ≤ 1))) = true := by
  with_unfolding_all decide

/-- C2 counterexample: called with `lines = 0` on a nondegenerate image the
pipeline fails with ZeroDivisionError (at `cell_h = target_h / lines`), not
with an `InvalidParameterError` — no such exception class exists in the
source, and no parameter validation happens before the image is opened and
resized. -/
theorem render_zero_lines_no_invalid_parameter_cex :
    image_to_blocks 4 4 (fun _ _ => 0) (fun _ _ => 0) 0 1 0 =
      .error .zeroDivisionError ∧
    PyErr.zeroDivisionError ≠ PyErr.invalidParameterError :=
  ⟨by with_unfolding_all rfl, by decide⟩

/-- C2 amended: `image_to_blocks` performs no parameter validation and never
raises an `InvalidParameterError`; with `lines = 0` (positive-height image)
it fails with ZeroDivisionError at `cell_h = target_h / lines`, and with a
zero-height image it fails with ZeroDivisionError at
`aspect = width / height` — in both cases only after the image has been
opened by the external collaborator. -/
theorem render_degenerate_zero_division :
    (∀ (w h : ℕ) (gray alpha : ℕ → ℕ → ℕ) (contrast brightness : ℚ), 0 < h →
      image_to_blocks w h gray alpha 0 contrast brightness =
        .error .zeroDivisionError) ∧
    ∀ (w : ℕ) (gray alpha : ℕ → ℕ → ℕ) (lines : ℤ) (contrast brightness : ℚ),
      image_to_blocks w 0 gray alpha lines contrast brightness =
        .error .zeroDivisionError := by
  constructor
  · intro w h gray alpha contrast brightness hh
    unfold image_to_blocks image_to_blocks_rows
    rw [if_neg (Nat.pos_iff_ne_zero.mp hh)]
    simp [Except.map]
  · intro w gray alpha lines contrast brightness
    unfold image_to_blocks image_to_blocks_rows
    simp [Except.map]

/-- C2 witness: both degenerate shapes at concrete inputs. -/
theorem render_degenerate_zero_division_witness :
    image_to_blocks 4 4 (fun _ _ => 7) (fun _ _ => 9) 0 1 0 =
      .error .zeroDivisionError ∧
    image_to_blocks 4 0 (fun _ _ => 7) (fun _ _ => 9) 10 1 0 =
      .error .zeroDivisionError :=
  ⟨render_degenerate_zero_division.1 4 4 _ _ 1 0 (by decide),
    render_degenerate_zero_division.2 4 _ _ 10 1 0⟩

/-- C3 counterexample: a cell whose quadrant slice is empty (cell size 2/5,
so `x_start = x_mid = 0`) yields NaN (`none`, numpy's mean of an empty
slice) — not the claimed 0. -/
theorem sample_cell_empty_mean_not_zero_cex :
    (sample_cell 4 4 (fun _ _ => 1) 0 0 (2/5) (2/5)).tl = none ∧
    (sample_cell 4 4 (fun _ _ => 1) 0 0 (2/5) (2/5)).tl ≠ some 0 := by
  with_unfolding_all decide

/-- C3 amended: a quadrant sub-rectangle of zero width (or zero height)
makes `sample_cell` return NaN (`none`) for the quadrants on that side —
the undefined value propagates instead of being defined as 0.  (In the
pipeline itself this never arises: cell sizes are exactly 2, every quadrant
is a single pixel.) -/
theorem sample_cell_empty_mean_nan :
    ∀ (H W : ℕ) (f : ℕ → ℕ → ℚ) (x y : ℕ) (cell_w cell_h : ℚ),
      0 ≤ cell_w → 0 ≤ cell_h →
      ((⌊((x : ℚ) + 1/2) * cell_w⌋ ≤ ⌊(x : ℚ) * cell_w⌋ →
        (sample_cell H W f x y cell_w cell_h).tl = none ∧
        (sample_cell H W f x y cell_w cell_h).bl = none) ∧
      (⌊((y : ℚ) + 1/2) * cell_h⌋ ≤ ⌊(y : ℚ) * cell_h⌋ →
        (sample_cell H W f x y cell_w cell_h).tl = none ∧
        (sample_cell H W f x y cell_w cell_h).tr = none)) := by
  intro H W f x y cell_w cell_h hw hh
  have hxnn : (0 : ℚ) ≤ (x : ℚ) * cell_w :=
    mul_nonneg (Nat.cast_nonneg x) hw
  have hxnn2 : (0 : ℚ) ≤ ((x : ℚ) + 1/2) * cell_w :=
    mul_nonneg (by positivity) hw
  have hynn : (0 : ℚ) ≤ (y : ℚ) * cell_h :=
    mul_nonneg (Nat.cast_nonneg y) hh
  have hynn2 : (0 : ℚ) ≤ ((y : ℚ) + 1/2) * cell_h :=
    mul_nonneg (by positivity) hh
  constructor
  · intro hle
    have hmono : ⌊(x : ℚ) * cell_w⌋ ≤ ⌊((x : ℚ) + 1/2) * cell_w⌋ :=
      Int.floor_le_floor (mul_le_mul_of_nonneg_right (by linarith) hw)
    have heq : pyTrunc (((x : ℚ) + 1/2) * cell_w) = pyTrunc ((x : ℚ) * cell_w) := by
      rw [pyTrunc_eq_floor hxnn, pyTrunc_eq_floor hxnn2]
      exact le_antisymm hle hmono
    rw [sample_cell_tl, sample_cell_bl, heq]
    unfold regionMean
    simp
  · intro hle
    have hmono : ⌊(y : ℚ) * cell_h⌋ ≤ ⌊((y : ℚ) + 1/2) * cell_h⌋ :=
      Int.floor_le_floor (mul_le_mul_of_nonneg_right (by linarith) hh)
    have heq : pyTrunc (((y : ℚ) + 1/2) * cell_h) = pyTrunc ((y : ℚ) * cell_h) := by
      rw [pyTrunc_eq_floor hynn, pyTrunc_eq_floor hynn2]
      exact le_antisymm hle hmono
    rw [sample_cell_tl, sample_cell_tr, heq]
    unfold regionMean
    simp

/-- C3 witness: the concrete empty-width cell (cell size 2/5 at x = 0). -/
theorem sample_cell_empty_mean_nan_witness :
    (sample_cell 4 4 (fun _ _ => (1 : ℚ)) 0 0 (2/5) (2/5)).tl = none ∧
    (sample_cell 4 4 (fun _ _ => (1 : ℚ)) 0 0 (2/5) (2/5)).bl = none :=
  (sample_cell_empty_mean_nan 4 4 (fun _ _ => 1) 0 0 (2/5) (2/5)
    (by with_unfolding_all decide) (by with_unfolding_all decide)).1
    (by with_unfolding_all decide)

/-- C1 counterexample: for a 7 × 8 image at one output line the code's
column count is `int(1 * 7/8 * 2) = 1` (truncation), while the claimed
`round(1 * 7/8 * 2) = 2`; the single returned row has length 1, not 2. -/
theorem render_columns_truncated_not_rounded_cex :
    (image_to_blocks_rows 7 8 (fun _ _ => 128) (fun _ _ => 255) 1 1 0).map
      (fun rows => (rows.length, rows.map String.length)) = .ok (1, [1]) ∧
    round ((1 : ℚ) * ((7 : ℚ) / 8) * 2) = 2 :=
  ⟨by with_unfolding_all rfl, by with_unfolding_all decide⟩

theorem list_range_map_sum (n : ℕ) (g : ℕ → ℚ) :
    ((List.range n).map g).sum = ∑ i ∈ Finset.range n, g i := by
  induction n with
  | zero => simp
  | succ n ih =>
    rw [List.range_succ, List.map_append, List.sum_append,
      Finset.sum_range_succ, ih]
    simp

theorem regionMean_eq_meanSpec (f : ℕ → ℕ → ℚ) (ys ye xs xe : ℕ) :
    regionMean f ys ye xs xe = meanSpec f ys ye xs xe := by
  unfold regionMean meanSpec
  by_cases h : ys < ye ∧ xs < xe
  · rw [if_neg (by rw [Nat.mul_eq_zero]; omega), if_pos h]
    congr 1
    congr 1
    rw [list_range_map_sum, Finset.sum_Ico_eq_sum_range]
    refine Finset.sum_congr rfl fun dy _ => ?_
    rw [list_range_map_sum, Finset.sum_Ico_eq_sum_range]
  · rw [if_pos (by rw [Nat.mul_eq_zero]; omega), if_neg h]

/-- C9: for every field, cell index and positive cell size, `sample_cell`
computes the floor-based cell boundaries `start = ⌊i * size⌋`,
`mid = ⌊(i + 1/2) * size⌋`, `end = ⌊(i + 1) * size⌋` on each axis and
returns the mean intensity of each of the four quadrant sub-rectangles
(`sampleCellSpec`, the spec's wording of section 4.3). -/
theorem sample_cell_matches_spec :
    ∀ (H W : ℕ) (f : ℕ → ℕ → ℚ) (x y : ℕ) (cw ch : ℚ), 0 < cw → 0 < ch →
      sample_cell H W f x y cw ch = sampleCellSpec H W f x y cw ch := by
  intro H W f x y cw ch hw hh
  have e1 : pyTrunc ((x : ℚ) * cw) = ⌊(x : ℚ) * cw⌋ :=
    pyTrunc_eq_floor (mul_nonneg (Nat.cast_nonneg x) hw.le)
  have e2 : pyTrunc (((x : ℚ) + 1/2) * cw) = ⌊((x : ℚ) + 1/2) * cw⌋ :=
    pyTrunc_eq_floor (mul_nonneg (by positivity) hw.le)
  have e3 : pyTrunc (((x : ℚ) + 1) * cw) = ⌊((x : ℚ) + 1) * cw⌋ :=
    pyTrunc_eq_floor (mul_nonneg (by positivity) hw.le)
  have e4 : pyTrunc ((y : ℚ) * ch) = ⌊(y : ℚ) * ch⌋ :=
    pyTrunc_eq_floor (mul_nonneg (Nat.cast_nonneg y) hh.le)
  have e5 : pyTrunc (((y : ℚ) + 1/2) * ch) = ⌊((y : ℚ) + 1/2) * ch⌋ :=
    pyTrunc_eq_floor (mul_nonneg (by positivity) hh.le)
  have e6 : pyTrunc (((y : ℚ) + 1) * ch) = ⌊((y : ℚ) + 1) * ch⌋ :=
    pyTrunc_eq_floor (mul_nonneg (by positivity) hh.le)
  unfold sample_cell sampleCellSpec
  rw [e1, e2, e3, e4, e5, e6]
  simp only [regionMean_eq_meanSpec]

/-- C9 witness: the concrete 2 × 2 field at cell (0, 0) with cell size 2. -/
theorem sample_cell_matches_spec_witness :
    sample_cell 2 2 (fun _ _ => (1 : ℚ)/2) 0 0 2 2 =
      sampleCellSpec 2 2 (fun _ _ => (1 : ℚ)/2) 0 0 2 2 :=
  sample_cell_matches_spec 2 2 (fun _ _ => (1 : ℚ)/2) 0 0 2 2
    (by with_unfolding_all decide) (by with_unfolding_all decide)

theorem bestFitAux_mem (q : Quad) (S : List Char) :
    ∀ (l : List (Char × Pat)) (best : Char) (minD : Option ℚ),
      best ∈ S → (∀ e ∈ l, e.1 ∈ S) → bestFitAux q l best minD ∈ S := by
  intro l
  induction l with
  | nil =>
    intro best minD hb _
    exact hb
  | cons e t ih =>
    intro best minD hb hl
    unfold bestFitAux
    by_cases hc : distLt (qdist q e.2) minD = true
    · rw [if_pos hc]
      exact ih e.1 _ (hl e (List.mem_cons_self e t))
        fun x hx => hl x (List.mem_cons_of_mem e hx)
    · rw [if_neg hc]
      exact ih best minD hb fun x hx => hl x (List.mem_cons_of_mem e hx)

theorem pyTrunc_natCast (n : ℕ) : pyTrunc ((n : ℕ) : ℚ) = (n : ℤ) := by
  rw [pyTrunc]
  simp [Rat.num_natCast, Rat.den_natCast, Int.tdiv_one]

theorem sliceIdx_natCast (n m : ℕ) : sliceIdx ((n : ℕ) : ℤ) m = min n m := by
  unfold sliceIdx
  rw [if_neg (by omega)]
  simp

theorem regionMean_unit (f : ℕ → ℕ → ℚ) (a b : ℕ) :
    regionMean f a (a + 1) b (b + 1) = some (f a b) := by
  unfold regionMean
  rw [if_neg (by simp)]
  simp [List.range_succ]

theorem sample_cell_two (H W : ℕ) (f : ℕ → ℕ → ℚ) (x y : ℕ)
    (hx : 2 * x + 1 + 1 ≤ W) (hy : 2 * y + 1 + 1 ≤ H) :
    sample_cell H W f x y 2 2 =
      rquad (f (2 * y) (2 * x)) (f (2 * y) (2 * x + 1))
        (f (2 * y + 1) (2 * x)) (f (2 * y + 1) (2 * x + 1)) := by
  have ex1 : sliceIdx (pyTrunc ((x : ℚ) * 2)) W = 2 * x := by
    rw [show ((x : ℚ) * 2) = ((2 * x : ℕ) : ℚ) by push_cast; ring,
      pyTrunc_natCast, sliceIdx_natCast]
    omega
  have ex2 : sliceIdx (pyTrunc (((x : ℚ) + 1/2) * 2)) W = 2 * x + 1 := by
    rw [show (((x : ℚ) + 1/2) * 2) = ((2 * x + 1 : ℕ) : ℚ) by push_cast; ring,
      pyTrunc_natCast, sliceIdx_natCast]
    omega
  have ex3 : sliceIdx (pyTrunc (((x : ℚ) + 1) * 2)) W = 2 * x + 1 + 1 := by
    rw [show (((x : ℚ) + 1) * 2) = ((2 * x + 1 + 1 : ℕ) : ℚ) by push_cast; ring,
      pyTrunc_natCast, sliceIdx_natCast]
    omega
  have ey1 : sliceIdx (pyTrunc ((y : ℚ) * 2)) H = 2 * y := by
    rw [show ((y : ℚ) * 2) = ((2 * y : ℕ) : ℚ) by push_cast; ring,
      pyTrunc_natCast, sliceIdx_natCast]
    omega
  have ey2 : sliceIdx (pyTrunc (((y : ℚ) + 1/2) * 2)) H = 2 * y + 1 := by
    rw [show (((y : ℚ) + 1/2) * 2) = ((2 * y + 1 : ℕ) : ℚ) by push_cast; ring,
      pyTrunc_natCast, sliceIdx_natCast]
    omega
  have ey3 : sliceIdx (pyTrunc (((y : ℚ) + 1) * 2)) H = 2 * y + 1 + 1 := by
    rw [show (((y : ℚ) + 1) * 2) = ((2 * y + 1 + 1 : ℕ) : ℚ) by push_cast; ring,
      pyTrunc_natCast, sliceIdx_natCast]
    omega
  unfold sample_cell
  rw [ex1, ex2, ex3, ey1, ey2, ey3]
  dsimp only
  unfold rquad
  rw [regionMean_unit, regionMean_unit, regionMean_unit, regionMean_unit]

theorem best_fit_zero_quad : best_fit_quadrant (rquad 0 0 0 0) = ' ' := by
  with_unfolding_all rfl

theorem render_grid_length (H W : ℕ) (f : ℕ → ℕ → ℚ) (L C : ℕ) (cw ch : ℚ) :
    (render_grid H W f L C cw ch).length = L := by
  unfold render_grid
  simp

theorem string_mk_length (cs : List Char) : (String.mk cs).length = cs.length := rfl

theorem render_grid_row_lengths (H W : ℕ) (f : ℕ → ℕ → ℚ) (L C : ℕ) (cw ch : ℚ) :
    (render_grid H W f L C cw ch).map String.length = List.replicate L C := by
  unfold render_grid
  rw [List.map_map, List.eq_replicate_iff]
  constructor
  · simp
  · intro b hb
    obtain ⟨y, _, hy⟩ := List.mem_map.mp hb
    rw [← hy]
    simp [string_mk_length]

theorem render_grid_zero_field (L C : ℕ) (f : ℕ → ℕ → ℚ)
    (hf : ∀ yy xx, f yy xx = 0) :
    render_grid (2 * L) (2 * C) f L C 2 2 =
      List.replicate L (String.mk (List.replicate C ' ')) := by
  unfold render_grid
  rw [List.eq_replicate_iff]
  refine ⟨by simp, ?_⟩
  intro row hrow
  obtain ⟨y, hyr, hy⟩ := List.mem_map.mp hrow
  rw [← hy]
  congr 1
  rw [List.eq_replicate_iff]
  refine ⟨by simp, ?_⟩
  intro c hc
  obtain ⟨x, hxr, hxc⟩ := List.mem_map.mp hc
  rw [← hxc]
  rw [sample_cell_two (2 * L) (2 * C) f x y
    (by have := List.mem_range.mp hxr; omega)
    (by have := List.mem_range.mp hyr; omega)]
  rw [hf, hf, hf, hf]
  exact best_fit_zero_quad

theorem image_to_blocks_rows_ok (w h : ℕ) (gray alpha : ℕ → ℕ → ℕ)
    (lines : ℤ) (contrast brightness : ℚ) (hh : h ≠ 0) (hl : 0 < lines)
    (hc : 0 < pyTrunc ((lines : ℚ) * ((w : ℚ) / (h : ℚ)) * 2)) :
    image_to_blocks_rows w h gray alpha lines contrast brightness =
      .ok (render_grid (2 * lines.toNat)
        (2 * (pyTrunc ((lines : ℚ) * ((w : ℚ) / (h : ℚ)) * 2)).toNat)
        (fun yy xx => boost_contrast
          (applyBrightnessShift ((gray yy xx : ℚ) / 255) brightness *
            ((alpha yy xx : ℚ) / 255)) contrast)
        lines.toNat (pyTrunc ((lines : ℚ) * ((w : ℚ) / (h : ℚ)) * 2)).toNat
        2 2) := by
  unfold image_to_blocks_rows
  rw [if_neg hh]
  dsimp only
  rw [if_neg (by omega : ¬ lines = 0),
    if_neg (by omega : ¬ pyTrunc ((lines : ℚ) * ((w : ℚ) / (h : ℚ)) * 2) = 0)]
  have hd1 : (lines * 2).toNat = 2 * lines.toNat := by omega
  have hd2 : ((pyTrunc ((lines : ℚ) * ((w : ℚ) / (h : ℚ)) * 2)) * 2).toNat =
      2 * (pyTrunc ((lines : ℚ) * ((w : ℚ) / (h : ℚ)) * 2)).toNat := by omega
  have hch : (((lines * 2 : ℤ)) : ℚ) / ((lines : ℤ) : ℚ) = 2 := by
    push_cast
    rw [mul_comm, mul_div_assoc, div_self (by exact_mod_cast (by omega : lines ≠ 0)),
      mul_one]
  have hcw : (((pyTrunc ((lines : ℚ) * ((w : ℚ) / (h : ℚ)) * 2) * 2 : ℤ)) : ℚ) /
      ((pyTrunc ((lines : ℚ) * ((w : ℚ) / (h : ℚ)) * 2) : ℤ) : ℚ) = 2 := by
    push_cast
    rw [mul_comm, mul_div_assoc,
      div_self (by exact_mod_cast
        (by omega : pyTrunc ((lines : ℚ) * ((w : ℚ) / (h : ℚ)) * 2) ≠ 0)),
      mul_one]
  rw [hd1, hd2, hch, hcw]

/-- C1 corrected: the column count is `int(lines * aspect * 2)` — truncation,
not rounding — and, provided that truncated column count is positive, the
render returns exactly `lines` rows, each of length `cols`; when the
truncated column count is 0 the code instead dies with ZeroDivisionError at
`cell_w = target_w / cols`. -/
theorem render_shape_with_truncated_columns :
    ∀ (w h : ℕ) (gray alpha : ℕ → ℕ → ℕ) (lines : ℤ) (contrast brightness : ℚ),
      0 < h → 0 < lines →
      ((0 < pyTrunc ((lines : ℚ) * ((w : ℚ) / (h : ℚ)) * 2) →
        (image_to_blocks_rows w h gray alpha lines contrast brightness).map
          (fun rows => (rows.length, rows.map String.length)) =
          .ok (lines.toNat, List.replicate lines.toNat
            (pyTrunc ((lines : ℚ) * ((w : ℚ) / (h : ℚ)) * 2)).toNat)) ∧
      (pyTrunc ((lines : ℚ) * ((w : ℚ) / (h : ℚ)) * 2) = 0 →
        image_to_blocks_rows w h gray alpha lines contrast brightness =
          .error .zeroDivisionError)) := by
  intro w h gray alpha lines contrast brightness hh hl
  constructor
  · intro hc
    rw [image_to_blocks_rows_ok w h gray alpha lines contrast brightness
      (by omega) hl hc]
    simp [Except.map, render_grid_length, render_grid_row_lengths]
  · intro hc0
    unfold image_to_blocks_rows
    rw [if_neg (by omega : ¬ h = 0)]
    dsimp only
    rw [if_neg (by omega : ¬ lines = 0), if_pos hc0]

/-- C1 witness: an 8 × 8 image at one output line gives one row of
`int(1 * 1 * 2) = 2` characters. -/
theorem render_shape_with_truncated_columns_witness :
    (image_to_blocks_rows 8 8 (fun _ _ => 100) (fun _ _ => 255) 1 1 0).map
      (fun rows => (rows.length, rows.map String.length)) = .ok (1, [2]) := by
  rw [(render_shape_with_truncated_columns 8 8 (fun _ _ => 100)
    (fun _ _ => 255) 1 1 0 (by decide) (by decide)).1
    (by with_unfolding_all decide)]
  with_unfolding_all rfl

/-- C5: a fully transparent image (alpha 0 everywhere) renders, under the
default contrast 1 and brightness 0, to a grid consisting entirely of the
space glyph, whatever the grayscale content: every pixel composites to
`grayscale * 0 = 0`. -/
theorem transparent_image_all_spaces :
    ∀ (w h : ℕ) (gray : ℕ → ℕ → ℕ) (lines : ℤ), 0 < h → 0 < lines →
      0 < pyTrunc ((lines : ℚ) * ((w : ℚ) / (h : ℚ)) * 2) →
      image_to_blocks_rows w h gray (fun _ _ => 0) lines 1 0 =
        .ok (List.replicate lines.toNat (String.mk (List.replicate
          (pyTrunc ((lines : ℚ) * ((w : ℚ) / (h : ℚ)) * 2)).toNat ' '))) := by
  intro w h gray lines hh hl hc
  rw [image_to_blocks_rows_ok w h gray (fun _ _ => 0) lines 1 0 (by omega) hl hc]
  congr 1
  apply render_grid_zero_field
  intro yy xx
  have h1 : applyBrightnessShift ((gray yy xx : ℚ) / 255) 0 *
      (((0 : ℕ) : ℚ) / 255) = 0 := by
    simp
  rw [h1]
  unfold boost_contrast npClip
  norm_num

/-- C5 witness: a 5 × 5 fully transparent image at one line renders as a
single row of two spaces. -/
theorem transparent_image_all_spaces_witness :
    image_to_blocks_rows 5 5 (fun _ _ => 200) (fun _ _ => 0) 1 1 0 =
      .ok ["  "] := by
  rw [transparent_image_all_spaces 5 5 (fun _ _ => 200) 1 (by decide)
    (by decide) (by with_unfolding_all decide)]
  with_unfolding_all rfl

/-- C10: on every 2x2 sample — real-valued or not, inside `[0, 1]` or not —
`best_fit_quadrant` terminates (it is a structurally recursive scan) and
returns a character of the palette; the initial candidate `' '` is itself
the palette's first glyph. -/
theorem best_fit_total_in_palette :
    ∀ q : Quad, best_fit_quadrant q ∈ PATTERNS.map Prod.fst := by
  intro q
  unfold best_fit_quadrant
  refine bestFitAux_mem q (PATTERNS.map Prod.fst) PATTERNS ' ' none ?_ ?_
  · with_unfolding_all decide
  · intro e he
    exact List.mem_map_of_mem Prod.fst he

theorem qdist_rquad (a b c d : ℚ) (p : Pat) :
    qdist (rquad a b c d) p = some (rdist a b c d p) := rfl

theorem find_congr_on {α : Type} (p p2 : α → Bool) :
    ∀ l : List α, (∀ x ∈ l, p x = p2 x) → l.find? p = l.find? p2 := by
  intro l
  induction l with
  | nil =>
    intro _
    rfl
  | cons a t ih =>
    intro h
    have ha := h a (List.mem_cons_self a t)
    by_cases hpa : p a = true
    · rw [List.find?_cons_of_pos _ hpa, List.find?_cons_of_pos _ (ha.symm.trans hpa)]
    · rw [List.find?_cons_of_neg _ hpa,
        List.find?_cons_of_neg _ (by rw [← ha]; exact hpa)]
      exact ih fun x hx => h x (List.mem_cons_of_mem a hx)

theorem exists_first_min_elem (D : Char × Pat → ℚ) :
    ∀ l : List (Char × Pat), l ≠ [] → ∃ e ∈ l, ∀ e2 ∈ l, D e ≤ D e2 := by
  intro l
  induction l with
  | nil =>
    intro h
    exact absurd rfl h
  | cons a t ih =>
    intro _
    by_cases ht : t = []
    · subst ht
      refine ⟨a, List.mem_cons_self a [], ?_⟩
      intro e2 he2
      rw [List.mem_singleton] at he2
      rw [he2]
    · obtain ⟨m, hm, hmin⟩ := ih ht
      rcases le_total (D a) (D m) with hle | hle
      · refine ⟨a, List.mem_cons_self a t, ?_⟩
        intro e2 he2
        rcases List.mem_cons.mp he2 with h1 | h2
        · rw [h1]
        · exact le_trans hle (hmin e2 h2)
      · refine ⟨m, List.mem_cons_of_mem a hm, ?_⟩
        intro e2 he2
        rcases List.mem_cons.mp he2 with h1 | h2
        · rw [h1]
          exact hle
        · exact hmin e2 h2

theorem find_some_of_exists {α : Type} (p : α → Bool) (l : List α)
    (h : ∃ x ∈ l, p x = true) : ∃ a, l.find? p = some a := by
  cases hf : l.find? p with
  | none =>
    rw [List.find?_eq_none] at hf
    obtain ⟨x, hx, hp⟩ := h
    exact absurd hp (hf x hx)
  | some a => exact ⟨a, rfl⟩

theorem bestFitAux_first_min_below (a b c d : ℚ) :
    ∀ (l : List (Char × Pat)) (best : Char) (m : ℚ),
      bestFitAux (rquad a b c d) l best (some m) =
        (Option.map Prod.fst (l.find? fun e =>
          decide (rdist a b c d e.2 < m) &&
          l.all fun e2 => decide (rdist a b c d e.2 ≤ rdist a b c d e2.2))).getD
          best := by
  intro l
  induction l with
  | nil =>
    intro best m
    rfl
  | cons e0 t ih =>
    intro best m
    unfold bestFitAux
    rw [qdist_rquad]
    by_cases hlt : rdist a b c d e0.2 < m
    · rw [if_pos (by simp [distLt, hlt])]
      rw [ih e0.1 (rdist a b c d e0.2)]
      by_cases hA : (t.all fun e2 =>
          decide (rdist a b c d e0.2 ≤ rdist a b c d e2.2)) = true
      · rw [List.find?_cons_of_pos _ (by simp [List.all_cons, hlt, hA])]
        rw [List.find?_eq_none.mpr ?hn]
        · simp
        case hn =>
          intro x hx
          rw [List.all_eq_true] at hA
          have hxe0 := of_decide_eq_true (hA x hx)
          simp [not_lt.mpr hxe0]
      · rw [List.find?_cons_of_neg _ (by simp [List.all_cons, hA])]
        have hw : ∃ w ∈ t, rdist a b c d w.2 < rdist a b c d e0.2 := by
          by_contra hcon
          push_neg at hcon
          apply hA
          rw [List.all_eq_true]
          intro x hx
          exact decide_eq_true (hcon x hx)
        have hcongr : ∀ x ∈ t,
            (decide (rdist a b c d x.2 < rdist a b c d e0.2) &&
              t.all fun e2 => decide (rdist a b c d x.2 ≤ rdist a b c d e2.2)) =
            (decide (rdist a b c d x.2 < m) &&
              (e0 :: t).all fun e2 =>
                decide (rdist a b c d x.2 ≤ rdist a b c d e2.2)) := by
          intro x hx
          obtain ⟨w, hwmem, hwlt⟩ := hw
          by_cases hall : (t.all fun e2 =>
              decide (rdist a b c d x.2 ≤ rdist a b c d e2.2)) = true
          · have hxw : rdist a b c d x.2 ≤ rdist a b c d w.2 := by
              rw [List.all_eq_true] at hall
              exact of_decide_eq_true (hall w hwmem)
            have hxe0 : rdist a b c d x.2 < rdist a b c d e0.2 :=
              lt_of_le_of_lt hxw hwlt
            have hxm : rdist a b c d x.2 < m := lt_trans hxe0 hlt
            rw [List.all_cons, hall]
            simp [hxe0, hxm, le_of_lt hxe0]
          · rw [Bool.not_eq_true] at hall
            rw [List.all_cons, hall]
            simp
        rw [find_congr_on _ _ t hcongr]
        have hsome : ∃ aa, (t.find? fun e =>
            decide (rdist a b c d e.2 < m) &&
            (e0 :: t).all fun e2 =>
              decide (rdist a b c d e.2 ≤ rdist a b c d e2.2)) = some aa := by
          apply find_some_of_exists
          obtain ⟨w, hwmem, hwlt⟩ := hw
          have htne : t ≠ [] := by
            intro hte
            rw [hte] at hwmem
            exact absurd hwmem (List.not_mem_nil w)
          obtain ⟨mm, hmmem, hmmin⟩ :=
            exists_first_min_elem (fun e => rdist a b c d e.2) t htne
          refine ⟨mm, hmmem, ?_⟩
          have hmm_lt : rdist a b c d mm.2 < rdist a b c d e0.2 :=
            lt_of_le_of_lt (hmmin w hwmem) hwlt
          rw [List.all_cons]
          simp only [Bool.and_eq_true, decide_eq_true_eq, List.all_eq_true]
          refine ⟨lt_trans hmm_lt hlt, le_of_lt hmm_lt, ?_⟩
          intro x hx
          exact hmmin x hx
        obtain ⟨aa, haa⟩ := hsome
        rw [haa]
        simp
    · rw [if_neg (by simp [distLt, hlt])]
      rw [ih best m]
      rw [List.find?_cons_of_neg _ (by simp [hlt])]
      have hm_le : m ≤ rdist a b c d e0.2 := not_lt.mp hlt
      have hcongr : ∀ x ∈ t,
          (decide (rdist a b c d x.2 < m) &&
            t.all fun e2 => decide (rdist a b c d x.2 ≤ rdist a b c d e2.2)) =
          (decide (rdist a b c d x.2 < m) &&
            (e0 :: t).all fun e2 =>
              decide (rdist a b c d x.2 ≤ rdist a b c d e2.2)) := by
        intro x hx
        by_cases hxm : rdist a b c d x.2 < m
        · have hxe0 : rdist a b c d x.2 ≤ rdist a b c d e0.2 :=
            le_of_lt (lt_of_lt_of_le hxm hm_le)
          rw [List.all_cons]
          simp [hxm, hxe0]
        · simp [hxm]
      rw [find_congr_on _ _ t hcongr]

theorem bestFitAux_first_min (a b c d : ℚ) :
    ∀ (l : List (Char × Pat)) (best : Char), l ≠ [] →
      bestFitAux (rquad a b c d) l best none =
        (Option.map Prod.fst (l.find? fun e =>
          l.all fun e2 =>
            decide (rdist a b c d e.2 ≤ rdist a b c d e2.2))).getD best := by
  intro l best hne
  match l with
  | e0 :: t =>
    unfold bestFitAux
    rw [qdist_rquad, if_pos (by simp [distLt])]
    rw [bestFitAux_first_min_below a b c d t e0.1 (rdist a b c d e0.2)]
    by_cases hA : (t.all fun e2 =>
        decide (rdist a b c d e0.2 ≤ rdist a b c d e2.2)) = true
    · rw [List.find?_cons_of_pos _ (by simp [List.all_cons, hA])]
      rw [List.find?_eq_none.mpr ?hn]
      · simp
      case hn =>
        intro x hx
        rw [List.all_eq_true] at hA
        have hxe0 := of_decide_eq_true (hA x hx)
        simp [not_lt.mpr hxe0]
    · rw [List.find?_cons_of_neg _ (by simp [List.all_cons, hA])]
      have hw : ∃ w ∈ t, rdist a b c d w.2 < rdist a b c d e0.2 := by
        by_contra hcon
        push_neg at hcon
        apply hA
        rw [List.all_eq_true]
        intro x hx
        exact decide_eq_true (hcon x hx)
      have hcongr : ∀ x ∈ t,
          (decide (rdist a b c d x.2 < rdist a b c d e0.2) &&
            t.all fun e2 => decide (rdist a b c d x.2 ≤ rdist a b c d e2.2)) =
          ((e0 :: t).all fun e2 =>
            decide (rdist a b c d x.2 ≤ rdist a b c d e2.2)) := by
        intro x hx
        obtain ⟨w, hwmem, hwlt⟩ := hw
        by_cases hall : (t.all fun e2 =>
            decide (rdist a b c d x.2 ≤ rdist a b c d e2.2)) = true
        · have hxw : rdist a b c d x.2 ≤ rdist a b c d w.2 := by
            rw [List.all_eq_true] at hall
            exact of_decide_eq_true (hall w hwmem)
          have hxe0 : rdist a b c d x.2 < rdist a b c d e0.2 :=
            lt_of_le_of_lt hxw hwlt
          rw [List.all_cons, hall]
          simp [hxe0, le_of_lt hxe0]
        · rw [Bool.not_eq_true] at hall
          rw [List.all_cons, hall]
          simp
      rw [find_congr_on _ _ t hcongr]
      have hsome : ∃ aa, (t.find? fun e =>
          (e0 :: t).all fun e2 =>
            decide (rdist a b c d e.2 ≤ rdist a b c d e2.2)) = some aa := by
        apply find_some_of_exists
        obtain ⟨w, hwmem, hwlt⟩ := hw
        have htne : t ≠ [] := by
          intro hte
          rw [hte] at hwmem
          exact absurd hwmem (List.not_mem_nil w)
        obtain ⟨mm, hmmem, hmmin⟩ :=
          exists_first_min_elem (fun e => rdist a b c d e.2) t htne
        refine ⟨mm, hmmem, ?_⟩
        have hmm_lt : rdist a b c d mm.2 < rdist a b c d e0.2 :=
          lt_of_le_of_lt (hmmin w hwmem) hwlt
        rw [List.all_cons]
        simp only [Bool.and_eq_true, decide_eq_true_eq, List.all_eq_true]
        refine ⟨le_of_lt hmm_lt, ?_⟩
        intro x hx
        exact hmmin x hx
      obtain ⟨aa, haa⟩ := hsome
      rw [haa]
      simp

/-- C4: on every real-valued 2x2 sample `best_fit_quadrant` returns the
glyph of the first palette entry (in palette enumeration order) whose
squared Euclidean distance to the sample is minimal over the whole
palette. -/
theorem best_fit_matches_spec_first_min :
    ∀ a b c d : ℚ, (bestFitSpec a b c d).map Prod.fst =
      some (best_fit_quadrant (rquad a b c d)) := by
  intro a b c d
  have hne : PATTERNS ≠ [] := by
    unfold PATTERNS ALL_PATTERNS QUADRANT_PATTERNS
    simp
  unfold best_fit_quadrant bestFitSpec
  rw [bestFitAux_first_min a b c d PATTERNS (' ') hne]
  have hex : ∃ x ∈ PATTERNS, (PATTERNS.all fun e2 =>
      decide (rdist a b c d x.2 ≤ rdist a b c d e2.2)) = true := by
    obtain ⟨mm, hmmem, hmmin⟩ :=
      exists_first_min_elem (fun e => rdist a b c d e.2) PATTERNS hne
    refine ⟨mm, hmmem, ?_⟩
    rw [List.all_eq_true]
    intro x hx
    exact decide_eq_true (hmmin x hx)
  obtain ⟨aa, haa⟩ := find_some_of_exists _ PATTERNS hex
  rw [haa]
  simp

end Img2Block
